import Mathlib

/-
Verification of the empower-enb-agent codec core (lib/empoweragentproto).

A byte region is modelled as a List Nat whose elements are bytes
(reads reduce modulo 256, mirroring the C++ unsigned char cells, and
writes store the value masked to a byte, mirroring the `& 0xFF` /
uint8_t stores of utils.hh).  A BufferView is a region together with
an offset and a length; the checked accessors of buffers.hh test
`offset + width > size` -- a size_t sum that wraps modulo 2^64 --
before touching the region.  Encoders and
decoders (protocol.cpp, tlvencoding.cpp, tlvs.cpp, io.cpp) are
translated as pure functions threading the region explicitly, and
every early `throw` becomes an error result produced before any
further write, in the same order as the source.
-/

/-- Error kinds of the protocol library, following the classification in
the sources: out-of-range bounds failures from
BufferView::throwExceptionIfOutOfBounds and the sub-view constructors,
malformed framing data, TLV type mismatches, encoder buffers too small
for the data (TLVKeyValueStringPairs::encode), invalid arguments
(CommonHeaderEncoder::messageClass on INVALID) and undersized buffers
at encoder or decoder construction. -/
inductive Err where
  | outOfRange
  | malformed
  | typeMismatch
  | bufferTooSmall
  | invalidArgument
  | lengthError
  deriving DecidableEq

/-- MessageClass from protocol.hh. -/
inductive MessageClass where
  | INVALID
  | REQUEST_SET
  | REQUEST_ADD
  | REQUEST_DEL
  | REQUEST_GET
  | RESPONSE_SUCCESS
  | RESPONSE_FAILURE
  deriving DecidableEq

/-- Read one byte of a region (unsigned char load; a byte cell always
holds a value below 256, which the modulus makes explicit). -/
def getU8 (bs : List Nat) (i : Nat) : Nat :=
  (bs[i]?).getD 0 % 256

/-- Store one byte into a region (unsigned char store, value truncated
to a byte as in the `& 0xFF` stores of utils.hh). -/
def setU8 (bs : List Nat) (i v : Nat) : List Nat :=
  bs.set i (v % 256)

/-- Big-endian read of w bytes starting at pos: the shift/OR chains of
NetworkLib::getUint16At / getUint32At / getUint64At (utils.hh), with
`(b0 << 8) | b1` rendered as `b0 * 256 + b1` (equal, as every byte is
below 256). -/
def getBE (bs : List Nat) (pos : Nat) : Nat → Nat
  | 0 => 0
  | w + 1 => getBE bs pos w * 256 + getU8 bs (pos + w)

/-- Big-endian write of the w low bytes of v starting at pos: the
byte-by-byte stores of NetworkLib::setUint16At / setUint32At /
setUint64At (utils.hh); byte pos+w-1 receives v % 256, byte pos
receives (v >> 8*(w-1)) & 0xFF. -/
def setBE (bs : List Nat) (pos : Nat) : Nat → Nat → List Nat
  | 0, _ => bs
  | w + 1, v => setBE (setU8 bs (pos + w) v) pos w (v / 256)

/-- NetworkLib::getUint16At. -/
def getU16 (bs : List Nat) (pos : Nat) : Nat := getBE bs pos 2

/-- NetworkLib::getUint32At. -/
def getU32 (bs : List Nat) (pos : Nat) : Nat := getBE bs pos 4

/-- NetworkLib::getUint64At. -/
def getU64 (bs : List Nat) (pos : Nat) : Nat := getBE bs pos 8

/-- Write a run of bytes at consecutive positions (std::copy of a byte
range into the region). -/
def writeBytes (bs : List Nat) (pos : Nat) : List Nat → List Nat
  | [] => bs
  | c :: cs => writeBytes (setU8 bs pos c) (pos + 1) cs

/-- Write the bytes of s at pos followed by a terminating zero: the
copy performed by BufferWritableView::setCStringAt after its bounds
check. -/
def writeCString (bs : List Nat) (pos : Nat) (s : List Nat) : List Nat :=
  setU8 (writeBytes bs pos s) (pos + s.length) 0

theorem length_setU8 (bs : List Nat) (i v : Nat) :
    (setU8 bs i v).length = bs.length := by
  simp [setU8]

theorem length_setBE (bs : List Nat) (pos w v : Nat) :
    (setBE bs pos w v).length = bs.length := by
  induction w generalizing bs v with
  | zero => rfl
  | succ w ih => rw [setBE, ih, length_setU8]

theorem length_writeBytes (bs : List Nat) (pos : Nat) (cs : List Nat) :
    (writeBytes bs pos cs).length = bs.length := by
  induction cs generalizing bs pos with
  | nil => rfl
  | cons c cs ih => rw [writeBytes, ih, length_setU8]

theorem getU8_setU8_ne (bs : List Nat) (i j v : Nat) (h : i ≠ j) :
    getU8 (setU8 bs i v) j = getU8 bs j := by
  simp [getU8, setU8, List.getElem?_set_ne h]

theorem getU8_setU8_eq (bs : List Nat) (i v : Nat) (h : i < bs.length) :
    getU8 (setU8 bs i v) i = v % 256 := by
  simp [getU8, setU8, List.getElem?_set_self h]

theorem getU8_setBE_outside (bs : List Nat) (pos w v j : Nat)
    (h : j < pos ∨ pos + w ≤ j) :
    getU8 (setBE bs pos w v) j = getU8 bs j := by
  induction w generalizing bs v with
  | zero => rfl
  | succ w ih =>
      rw [setBE, ih _ _ (by omega), getU8_setU8_ne _ _ _ _ (by omega)]

theorem getU8_writeBytes_outside (bs : List Nat) (pos : Nat) (cs : List Nat)
    (j : Nat) (h : j < pos ∨ pos + cs.length ≤ j) :
    getU8 (writeBytes bs pos cs) j = getU8 bs j := by
  induction cs generalizing bs pos with
  | nil => rfl
  | cons c cs ih =>
      rw [writeBytes, ih _ _ (by simp at h; omega),
        getU8_setU8_ne _ _ _ _ (by simp at h; omega)]

theorem getBE_setBE_outside (bs : List Nat) (pos w v i u : Nat)
    (h : i + u ≤ pos ∨ pos + w ≤ i) :
    getBE (setBE bs pos w v) i u = getBE bs i u := by
  induction u with
  | zero => rfl
  | succ u ih =>
      rw [getBE, getBE, ih (by omega),
        getU8_setBE_outside _ _ _ _ _ (by omega)]

theorem getBE_writeBytes_outside (bs : List Nat) (pos : Nat) (cs : List Nat)
    (i u : Nat) (h : i + u ≤ pos ∨ pos + cs.length ≤ i) :
    getBE (writeBytes bs pos cs) i u = getBE bs i u := by
  induction u with
  | zero => rfl
  | succ u ih =>
      rw [getBE, getBE, ih (by omega),
        getU8_writeBytes_outside _ _ _ _ (by omega)]

theorem getBE_setBE_same (bs : List Nat) (pos w v : Nat)
    (h : pos + w ≤ bs.length) :
    getBE (setBE bs pos w v) pos w = v % 256 ^ w := by
  induction w generalizing bs v with
  | zero => simp [setBE, getBE, Nat.mod_one]
  | succ w ih =>
      rw [setBE, getBE]
      rw [ih _ _ (by rw [length_setU8]; omega)]
      rw [getU8_setBE_outside _ _ _ _ _ (by omega),
        getU8_setU8_eq _ _ _ (by omega)]
      rw [pow_succ, mul_comm (256 ^ w) 256, Nat.mod_mul]
      ring

theorem getU8_lt (bs : List Nat) (i : Nat) : getU8 bs i < 256 := by
  simp [getU8]
  omega

theorem getBE_lt (bs : List Nat) (pos w : Nat) :
    getBE bs pos w < 256 ^ w := by
  induction w with
  | zero => simp [getBE]
  | succ w ih =>
      rw [getBE, pow_succ]
      have := getU8_lt bs (pos + w)
      nlinarith

theorem getBE_setU8_outside (bs : List Nat) (i v pos w : Nat)
    (h : pos + w ≤ i ∨ i < pos) :
    getBE (setU8 bs i v) pos w = getBE bs pos w := by
  induction w with
  | zero => rfl
  | succ w ih =>
      rw [getBE, getBE, ih (by omega), getU8_setU8_ne _ _ _ _ (by omega)]

theorem getBE_eq_zero (bs : List Nat) (pos w : Nat)
    (h : ∀ j, pos ≤ j → j < pos + w → getU8 bs j = 0) :
    getBE bs pos w = 0 := by
  induction w with
  | zero => rfl
  | succ w ih =>
      rw [getBE, ih (fun j h1 h2 => h j h1 (by omega)),
        h (pos + w) (by omega) (by omega)]

/-
Common header layout (protocol.hh, struct CommonHeader): version at
offset 0, flags at 1, ts_rc at 2, length at 4, element_id at 8,
sequence at 16, transaction_id at 20; total length 24.  The field
setters of CommonHeaderEncoder (protocol.cpp) use the unchecked
writers, the construction guard having established size >= 24.
-/

/-- CommonHeaderEncoder::version (protocol.cpp): u8 store at offset 0. -/
def versionSet (buf : List Nat) (v : Nat) : List Nat := setU8 buf 0 v

/-- CommonHeaderEncoder::sequence: u32 store at offset 16. -/
def sequenceSet (buf : List Nat) (v : Nat) : List Nat := setBE buf 16 4 v

/-- CommonHeaderEncoder::elementId: u64 store at offset 8. -/
def elementIdSet (buf : List Nat) (v : Nat) : List Nat := setBE buf 8 8 v

/-- CommonHeaderEncoder::transactionId: u32 store at offset 20. -/
def transactionIdSet (buf : List Nat) (v : Nat) : List Nat := setBE buf 20 4 v

/-- CommonHeaderEncoder::totalLengthBytes: u32 store at offset 4. -/
def totalLengthSet (buf : List Nat) (v : Nat) : List Nat := setBE buf 4 4 v

/-- Modelled from the spec: CommonHeaderEncoder::cellIdentifier is
declared in protocol.hh but its definition is missing from the sources
(only the declaration and the one call site in setDefaults exist).
The spec states that construction "writes defaults: version=2,
flags=0, ts_rc=0, length=0 (finalized later),
element_id=sequence=transaction_id=0", and in the setDefaults chain
version(2).cellIdentifier(0).sequence(0).elementId(0).transactionId(0)
the cellIdentifier(0) call is the only one left to account for the
flags, ts_rc and length defaults; it is therefore modelled as
clearing the flags byte and the length field and storing its 16-bit
argument in ts_rc. -/
def cellIdentifierSet (buf : List Nat) (v : Nat) : List Nat :=
  setBE (setBE (setU8 buf 1 0) 2 2 v) 4 4 0

/-- CommonHeaderEncoder::setDefaults (protocol.cpp):
version(2).cellIdentifier(0).sequence(0).elementId(0).transactionId(0). -/
def setDefaults (buf : List Nat) : List Nat :=
  transactionIdSet (elementIdSet (sequenceSet (cellIdentifierSet (versionSet buf 2) 0) 0) 0) 0

/-- CommonHeaderEncoder construction: throwIfBufferIsUnsuitable throws
a length error when the view is smaller than CommonHeader::totalLength
(24), then setDefaults runs. -/
def commonHeaderEncoderInit (buf : List Nat) : Except Err (List Nat) :=
  if buf.length < 24 then .error .lengthError else .ok (setDefaults buf)

/-- The per-class request flag and operation bits chosen by the switch
in CommonHeaderEncoder::messageClass (protocol.cpp); INVALID throws
invalid_argument.  Note RESPONSE_FAILURE uses highBits = 2
(bit 15 set, bit 14 clear). -/
def messageClassBits : MessageClass → Option (Bool × Nat)
  | .INVALID => none
  | .REQUEST_SET => some (true, 0)
  | .REQUEST_ADD => some (true, 1)
  | .REQUEST_DEL => some (true, 2)
  | .REQUEST_GET => some (true, 3)
  | .RESPONSE_SUCCESS => some (false, 0)
  | .RESPONSE_FAILURE => some (false, 2)

/-- CommonHeaderEncoder::messageClass (protocol.cpp): saves flags bits
0-6 (flags & 0x7F) and ts_rc bits 0-13 (ts_rc & 0x3FFF), then writes
flags with bit 7 cleared for requests or set for responses, and ts_rc
as savedBits | (highBits << 14).  Masks of the form x & (2^k - 1) are
written x % 2^k, and the disjoint OR as addition. -/
def encoderMessageClass (buf : List Nat) (mc : MessageClass) : Except Err (List Nat) :=
  match messageClassBits mc with
  | none => .error .invalidArgument
  | some (isReq, highBits) =>
      let savedFlags := getU8 buf 1 % 128
      let savedBits := getU16 buf 2 % 16384
      let buf1 := if isReq then setU8 buf 1 savedFlags
        else setU8 buf 1 (savedFlags + 128)
      .ok (setBE buf1 2 2 (savedBits + highBits * 16384))

/-- CommonHeaderDecoder::messageClass (protocol.cpp).  For requests
(flags bit 7 clear, i.e. flags < 128) the source computes
op = (tsRc() >> 13) & 0x03 -- despite its comment saying bits 14-15 --
rendered here as tsRc / 2^13 % 4; for responses it computes
op = tsRc() >> 14 and tests it against 0. -/
def decoderMessageClass (buf : List Nat) : MessageClass :=
  if getU8 buf 1 < 128 then
    match getU16 buf 2 / 8192 % 4 with
    | 0 => .REQUEST_SET
    | 1 => .REQUEST_ADD
    | 2 => .REQUEST_DEL
    | _ => .REQUEST_GET
  else
    if getU16 buf 2 / 16384 = 0 then .RESPONSE_SUCCESS
    else .RESPONSE_FAILURE

/-- Claim C1: the message-class round trip through the common header
fails on the code.  Evaluating the code at the failing input: encoding
REQUEST_ADD into a freshly constructed (default-initialized) header
and decoding the same bytes yields REQUEST_DEL, not REQUEST_ADD,
because CommonHeaderDecoder::messageClass reads the operation from
bits 13-14 ((tsRc >> 13) & 3) while CommonHeaderEncoder::messageClass
wrote it at bits 14-15 (highBits << 14), as the decoder's own comment
and the protocol.hh documentation describe. -/
theorem c1_messageClass_roundTrip_fails :
    (encoderMessageClass (setDefaults (List.replicate 24 0)) .REQUEST_ADD).map
        decoderMessageClass = .ok .REQUEST_DEL ∧
      MessageClass.REQUEST_DEL ≠ MessageClass.REQUEST_ADD := by
  exact ⟨by rfl, by decide⟩

/-- Claim C3: constructing a CommonHeaderEncoder over a writable view
of size at least 24 writes the defaults version=2 at offset 0, flags=0
at offset 1, ts_rc=0 at offset 2, length=0 at offset 4, element_id=0
at offset 8, sequence=0 at offset 16 and transaction_id=0 at offset
20, regardless of the prior contents of the buffer.  The missing
cellIdentifier setter is modelled from the spec (see
cellIdentifierSet). -/
theorem c3_encoder_defaults (buf : List Nat) (h : 24 ≤ buf.length) :
    commonHeaderEncoderInit buf = .ok (setDefaults buf) ∧
      getU8 (setDefaults buf) 0 = 2 ∧
      getU8 (setDefaults buf) 1 = 0 ∧
      getU16 (setDefaults buf) 2 = 0 ∧
      getU32 (setDefaults buf) 4 = 0 ∧
      getU64 (setDefaults buf) 8 = 0 ∧
      getU32 (setDefaults buf) 16 = 0 ∧
      getU32 (setDefaults buf) 20 = 0 := by
  unfold commonHeaderEncoderInit setDefaults transactionIdSet elementIdSet
    sequenceSet cellIdentifierSet versionSet
  refine ⟨by rw [if_neg (by omega)], ?_, ?_, ?_, ?_, ?_, ?_, ?_⟩
  · rw [getU8_setBE_outside _ _ _ _ _ (by omega),
      getU8_setBE_outside _ _ _ _ _ (by omega),
      getU8_setBE_outside _ _ _ _ _ (by omega),
      getU8_setBE_outside _ _ _ _ _ (by omega),
      getU8_setBE_outside _ _ _ _ _ (by omega),
      getU8_setU8_ne _ _ _ _ (by omega),
      getU8_setU8_eq _ _ _ (by omega)]
  · rw [getU8_setBE_outside _ _ _ _ _ (by omega),
      getU8_setBE_outside _ _ _ _ _ (by omega),
      getU8_setBE_outside _ _ _ _ _ (by omega),
      getU8_setBE_outside _ _ _ _ _ (by omega),
      getU8_setBE_outside _ _ _ _ _ (by omega),
      getU8_setU8_eq _ _ _ (by simp [length_setU8]; omega)]
  · show getBE _ 2 2 = 0
    rw [getBE_setBE_outside _ _ _ _ _ _ (by omega),
      getBE_setBE_outside _ _ _ _ _ _ (by omega),
      getBE_setBE_outside _ _ _ _ _ _ (by omega),
      getBE_setBE_outside _ _ _ _ _ _ (by omega),
      getBE_setBE_same _ _ _ _ (by simp [length_setU8, length_setBE]; omega)]
    exact Nat.zero_mod _
  · show getBE _ 4 4 = 0
    rw [getBE_setBE_outside _ _ _ _ _ _ (by omega),
      getBE_setBE_outside _ _ _ _ _ _ (by omega),
      getBE_setBE_outside _ _ _ _ _ _ (by omega),
      getBE_setBE_same _ _ _ _ (by simp [length_setU8, length_setBE]; omega)]
    exact Nat.zero_mod _
  · show getBE _ 8 8 = 0
    rw [getBE_setBE_outside _ _ _ _ _ _ (by omega),
      getBE_setBE_same _ _ _ _ (by simp [length_setU8, length_setBE]; omega)]
    exact Nat.zero_mod _
  · show getBE _ 16 4 = 0
    rw [getBE_setBE_outside _ _ _ _ _ _ (by omega),
      getBE_setBE_outside _ _ _ _ _ _ (by omega),
      getBE_setBE_same _ _ _ _ (by simp [length_setU8, length_setBE]; omega)]
    exact Nat.zero_mod _
  · show getBE _ 20 4 = 0
    rw [getBE_setBE_same _ _ _ _ (by simp [length_setU8, length_setBE]; omega)]
    exact Nat.zero_mod _

/-- Witness for c3_encoder_defaults: a 24-byte buffer previously
filled with 0xFF. -/
theorem c3_encoder_defaults_witness :
    commonHeaderEncoderInit (List.replicate 24 255) =
        .ok (setDefaults (List.replicate 24 255)) ∧
      getU8 (setDefaults (List.replicate 24 255)) 0 = 2 ∧
      getU8 (setDefaults (List.replicate 24 255)) 1 = 0 ∧
      getU16 (setDefaults (List.replicate 24 255)) 2 = 0 ∧
      getU32 (setDefaults (List.replicate 24 255)) 4 = 0 ∧
      getU64 (setDefaults (List.replicate 24 255)) 8 = 0 ∧
      getU32 (setDefaults (List.replicate 24 255)) 16 = 0 ∧
      getU32 (setDefaults (List.replicate 24 255)) 20 = 0 :=
  c3_encoder_defaults (List.replicate 24 255) (by simp)

/-- BufferView bounds-checked big-endian reader of width w over a view
(region, off, len): the getUintNAt / getIntNAt / getIPv4AddressAt /
getMACAddressAt family of buffers.hh, whose common shape is
throwExceptionIfOutOfBounds(method, offset, w) -- the size_t test
(offset + length) > mSize, whose addition wraps modulo 2^64 --
followed by a w-byte big-endian load (w = 1, 2, 4, 8 for the
integers, 4 for IPv4, 6 for MAC).  When the wrapped check passes
although offset + w mathematically exceeds the size, the source reads
past the region; such cells are rendered as 0 by getU8's out-of-range
default. -/
def viewGetBE (region : List Nat) (off len i w : Nat) : Except Err Nat :=
  if (i + w) % 2 ^ 64 > len then .error .outOfRange
  else .ok (getBE region (off + i) w)

/-- BufferWritableView bounds-checked big-endian writer of width w:
the setUintNAt / setIntNAt / setIPv4AddressAt / setMACAddressAt family
of buffers.hh; the same wrapping size_t bounds check runs before any
store.  When the wrapped check passes although offset + w exceeds the
size, the source stores outside the region; such stores are rendered
as no-ops on the modelled region (List.set out of range). -/
def viewSetBE (region : List Nat) (off len i w v : Nat) : List Nat × Except Err Unit :=
  if (i + w) % 2 ^ 64 > len then (region, .error .outOfRange)
  else (setBE region (off + i) w v, .ok ())

/-- Claim C7 counterexample: a width-2 read or write at offset
2^64 - 1 of a 3-byte view.  The claim requires the call to fail with
OutOfRange since offset + w = 2^64 + 1 > 3, but the size_t bounds
check computes (2^64 - 1 + 2) mod 2^64 = 1, which is not greater than
3, so both accessors proceed without any failure (the C++ access is
then out of bounds). -/
theorem c7_accessor_bounds_cx :
    3 < 2 ^ 64 - 1 + 2 ∧
      viewGetBE [1, 2, 3] 0 3 (2 ^ 64 - 1) 2 = .ok 0 ∧
      (viewSetBE [1, 2, 3] 0 3 (2 ^ 64 - 1) 2 9).2 = .ok () := by
  exact ⟨by decide, by rfl, by rfl⟩

/-- Claim C7 (amended): for every bounds-checked typed accessor of
width w on a view of size len, if the size_t sum (i + w) mod 2^64
exceeds len -- in particular whenever i + w > len and i + w is below
2^64, which covers every offset that can arise from a real view --
the call fails with OutOfRange and no byte of the underlying region
changes; if i + w <= len the call does not fail (the reader returns
the w-byte big-endian load, the writer succeeds).  At offsets so large
that i + w wraps past 2^64 the check can pass and the access proceeds
out of bounds. -/
theorem c7_accessor_bounds_amended (region : List Nat) (off len i w v : Nat) :
    (len < (i + w) % 2 ^ 64 →
        viewGetBE region off len i w = .error .outOfRange ∧
          viewSetBE region off len i w v = (region, .error .outOfRange)) ∧
      (i + w < 2 ^ 64 → len < i + w →
        viewGetBE region off len i w = .error .outOfRange ∧
          viewSetBE region off len i w v = (region, .error .outOfRange)) ∧
      (i + w ≤ len →
        viewGetBE region off len i w = .ok (getBE region (off + i) w) ∧
          (viewSetBE region off len i w v).2 = .ok ()) := by
  unfold viewGetBE viewSetBE
  refine ⟨fun h => ?_, fun h1 h2 => ?_, fun h => ?_⟩
  · rw [if_pos (by omega), if_pos (by omega)]
    exact ⟨rfl, rfl⟩
  · rw [if_pos (by omega), if_pos (by omega)]
    exact ⟨rfl, rfl⟩
  · have hm : (i + w) % 2 ^ 64 ≤ i + w := Nat.mod_le _ _
    rw [if_neg (by omega), if_neg (by omega)]
    exact ⟨rfl, rfl⟩

/-- Witness for c7_accessor_bounds_amended: width 2 at offset 2 of a
3-byte view fails out of range with the region intact, while offset 1
is within bounds and succeeds. -/
theorem c7_accessor_bounds_amended_witness :
    (viewGetBE [1, 2, 3] 0 3 2 2 = .error .outOfRange ∧
        viewSetBE [1, 2, 3] 0 3 2 2 9 = ([1, 2, 3], .error .outOfRange)) ∧
      (viewGetBE [1, 2, 3] 0 3 1 2 = .ok (getBE [1, 2, 3] 1 2) ∧
        (viewSetBE [1, 2, 3] 0 3 1 2 9).2 = .ok ()) :=
  ⟨(c7_accessor_bounds_amended [1, 2, 3] 0 3 2 2 9).2.1 (by decide) (by decide),
    (c7_accessor_bounds_amended [1, 2, 3] 0 3 1 2 9).2.2 (by decide)⟩

/-- MessageDecoder::getNextTLVType (tlvencoding.cpp): returns
TLVType::NONE (code 0) when mCurrentOffset + TLVHeader::headerLength
>= mBuffer.size(); otherwise it reads the declared type and total
length at the cursor and returns NONE when mCurrentOffset + length >
mBuffer.size(), else the declared type.  TLV types appear as their
u16 codes (tlvs.hh: NONE = 0, ERROR = 1, ...). -/
def getNextTLVType (buf : List Nat) (cursor : Nat) : Nat :=
  if cursor + 4 ≥ buf.length then 0
  else
    if cursor + getU16 buf (cursor + 2) > buf.length then 0
    else getU16 buf cursor

/-- A 28-byte frame, version 2, whose single TLV (type ERROR = 1) has
declared total length 4 and ends exactly at the end of the buffer. -/
def c4Frame : List Nat := 2 :: (List.replicate 23 0 ++ [0, 1, 0, 4])

/-- Claim C4 counterexample: on c4Frame with the cursor at 24, exactly
4 header bytes remain (not fewer) and the declared total length 4 does
not overrun the buffer, so the claim requires the declared type 1 to
be returned; the code returns NONE (0) because its guard uses >=. -/
theorem c4_getNextTLVType_cx :
    c4Frame.length = 28 ∧ getU16 c4Frame 24 = 1 ∧ getU16 c4Frame 26 = 4 ∧
      getNextTLVType c4Frame 24 = 0 ∧ getNextTLVType c4Frame 24 ≠ getU16 c4Frame 24 := by
  refine ⟨by decide, by decide, by decide, by decide, by decide⟩

/-- Claim C4 (amended): getNextTLVType returns NONE exactly when at
most 4 bytes remain after the cursor (so a final TLV of declared total
length exactly 4 ending at the buffer end is also reported as NONE) or
when the declared total length would overrun the buffer; otherwise it
returns the declared type without advancing (it takes the cursor as a
plain argument).  In particular a last TLV with a non-empty value
ending exactly at the buffer end has its type returned. -/
theorem c4_getNextTLVType_amended (buf : List Nat) (cursor : Nat)
    (ht : getU16 buf cursor ≠ 0) :
    (getNextTLVType buf cursor = 0 ↔
        (buf.length ≤ cursor + 4 ∨ buf.length < cursor + getU16 buf (cursor + 2))) ∧
      (cursor + 4 < buf.length → cursor + getU16 buf (cursor + 2) ≤ buf.length →
        getNextTLVType buf cursor = getU16 buf cursor) := by
  unfold getNextTLVType
  refine ⟨?_, fun h1 h2 => by rw [if_neg (by omega), if_neg (by omega)]⟩
  split_ifs with h1 h2
  · exact ⟨fun _ => by omega, fun _ => rfl⟩
  · exact ⟨fun _ => by omega, fun _ => rfl⟩
  · exact ⟨fun hx => (ht hx).elim, fun hx => by omega⟩

/-- A 29-byte frame, version 2, whose single TLV (type ERROR = 1) has
declared total length 5 (one value byte) and ends exactly at the end
of the buffer. -/
def c4FrameB : List Nat := 2 :: (List.replicate 23 0 ++ [0, 1, 0, 5, 7])

/-- Witness for c4_getNextTLVType_amended: the last TLV of c4FrameB has
a non-empty value and ends exactly at the buffer end, and its type is
returned. -/
theorem c4_getNextTLVType_amended_witness :
    getNextTLVType c4FrameB 24 = getU16 c4FrameB 24 :=
  (c4_getNextTLVType_amended c4FrameB 24 (by decide)).2 (by decide) (by decide)

/-- BufferWritableView::setUint16At over a whole-buffer view: bounds
check offset + 2 > size, then the two-byte store. -/
def setU16Checked (buf : List Nat) (o v : Nat) : List Nat × Except Err Unit :=
  viewSetBE buf 0 buf.length o 2 v

/-- TLVUEMeasurementConfig::encode as implemented in tlvs.cpp: six
checked 16-bit stores of members mID, mRNTI, mEARFCN, mInterval,
mMaxCells, mMaxUsers at offsets idOffset, rntiOffset, earfcnOffset,
intervalOffset, maxCellOffset, maxUsersOffset, returning 12.  Of these
members and offsets only mRNTI, mInterval, rntiOffset = 0 and
intervalOffset = 3 are declared by the TLVUEMeasurementConfig class in
tlvs.hh (which declares the 5-byte layout rnti:2 measId:1 interval:1
amount:1); the implementation does not compile against its own header,
so the undeclared offsets and the six 16-bit values are parameters. -/
def ueMeasConfigEncodeCpp (oId oRnti oEarfcn oInterval oMaxCell oMaxUsers : Nat)
    (vId vRnti vEarfcn vInterval vMaxCells vMaxUsers : Nat)
    (buf : List Nat) : List Nat × Except Err Nat :=
  match setU16Checked buf oId vId with
  | (b1, .error e) => (b1, .error e)
  | (b1, .ok _) =>
    match setU16Checked b1 oRnti vRnti with
    | (b2, .error e) => (b2, .error e)
    | (b2, .ok _) =>
      match setU16Checked b2 oEarfcn vEarfcn with
      | (b3, .error e) => (b3, .error e)
      | (b3, .ok _) =>
        match setU16Checked b3 oInterval vInterval with
        | (b4, .error e) => (b4, .error e)
        | (b4, .ok _) =>
          match setU16Checked b4 oMaxCell vMaxCells with
          | (b5, .error e) => (b5, .error e)
          | (b5, .ok _) =>
            match setU16Checked b5 oMaxUsers vMaxUsers with
            | (b6, .error e) => (b6, .error e)
            | (b6, .ok _) => (b6, .ok 12)

/-- Claim C2 (code bug evaluation): TLVUEMeasurementConfig::encode in
tlvs.cpp returns 12 -- writing six 16-bit fields -- for a concrete
instance, not the 5 required by the claim and by the 5-byte layout
(rnti at 0, meas_id at 2, interval at 3, amount at 4) declared in
tlvs.hh; shown here with the consecutive offsets 0,2,4,6,8,10 standing
for the undeclared offset constants. -/
theorem c2_ueMeasConfig_encode_returns_12 :
    (ueMeasConfigEncodeCpp 0 2 4 6 8 10 1 2 3 4 5 6 (List.replicate 12 0)).2 =
        .ok 12 ∧ (12 : Nat) ≠ 5 := by
  exact ⟨by rfl, by decide⟩

/-- TLVError::encode (tlvs.cpp): a checked 16-bit store of the error
code at offset 0, then setCStringAt(2, message) -- whose bounds check
offset + (size + 1) > size runs only after the error code bytes are
already written -- returning 2 + (message size + 1). -/
def tlvErrorEncode (errCode : Nat) (msg : List Nat) (buf : List Nat) :
    List Nat × Except Err Nat :=
  match setU16Checked buf 0 errCode with
  | (b1, .error e) => (b1, .error e)
  | (b1, .ok _) =>
      if 2 + (msg.length + 1) > b1.length then (b1, .error .outOfRange)
      else (writeCString b1 2 msg, .ok (2 + (msg.length + 1)))

/-- The first pass of TLVKeyValueStringPairs::encode (tlvs.cpp):
requiredSize summed as first.size() + 1 + second.size() + 1 over the
pairs. -/
def kvRequiredSize (pairs : List (List Nat × List Nat)) : Nat :=
  (pairs.map (fun a => a.1.length + 1 + (a.2.length + 1))).sum

/-- The second pass of TLVKeyValueStringPairs::encode: setCStringAt of
each key and value at the running offset (each store bounds-checked,
as in the source). -/
def kvWritePairs : List (List Nat × List Nat) → List Nat → Nat →
    List Nat × Except Err Unit
  | [], buf, _ => (buf, .ok ())
  | (k, v) :: rest, buf, off =>
      if off + (k.length + 1) > buf.length then (buf, .error .outOfRange)
      else
        let b1 := writeCString buf off k
        if off + (k.length + 1) + (v.length + 1) > b1.length then
          (b1, .error .outOfRange)
        else kvWritePairs rest (writeCString b1 (off + (k.length + 1)) v)
          (off + (k.length + 1) + (v.length + 1))

/-- TLVKeyValueStringPairs::encode (tlvs.cpp): two passes -- if the
summed required size exceeds the buffer, fail before writing anything;
otherwise write all pairs and return the required size. -/
def tlvKVPairsEncode (pairs : List (List Nat × List Nat)) (buf : List Nat) :
    List Nat × Except Err Nat :=
  if kvRequiredSize pairs > buf.length then (buf, .error .bufferTooSmall)
  else
    match kvWritePairs pairs buf 0 with
    | (b, .error e) => (b, .error e)
    | (b, .ok _) => (b, .ok (kvRequiredSize pairs))

/-- Claim C5 counterexample: a TLVError whose value needs 100 bytes
(errcode plus a 97-character message plus NUL) encoded into a 50-byte
view previously filled with 0xFF fails with OutOfRange -- not the
buffer-too-small error -- and the view is not byte-unchanged: the
error code 42 has already been stored at offsets 0-1. -/
theorem c5_tlvError_encode_not_atomic :
    (tlvErrorEncode 42 (List.replicate 97 49) (List.replicate 50 255)).2 =
        .error .outOfRange ∧
      Err.outOfRange ≠ Err.bufferTooSmall ∧
      getU8 (tlvErrorEncode 42 (List.replicate 97 49) (List.replicate 50 255)).1 1 = 42 ∧
      getU8 (List.replicate 50 255) 1 = 255 := by
  exact ⟨by rfl, by decide, by decide, by decide⟩

/-- Claim C5 (amended): TLVKeyValueStringPairs::encode is atomic on
failure -- when the summed required size exceeds the view it fails
BufferTooSmall with every byte unchanged (two-pass) -- but
TLVError::encode on a view too small for errcode + message + NUL fails
with OutOfRange from the bounds-checked string writer, after the
2-byte error code has already been written when the view holds at
least 2 bytes, so that view is not byte-unchanged. -/
theorem c5_encode_failure_behaviour :
    (∀ pairs buf, buf.length < kvRequiredSize pairs →
        tlvKVPairsEncode pairs buf = (buf, .error .bufferTooSmall)) ∧
      (∀ ec msg buf, 2 ≤ buf.length → buf.length < 2 + (msg.length + 1) →
        tlvErrorEncode ec msg buf = (setBE buf 0 2 ec, .error .outOfRange)) := by
  constructor
  · intro pairs buf h
    unfold tlvKVPairsEncode
    rw [if_pos (by omega)]
  · intro ec msg buf h1 h2
    unfold tlvErrorEncode setU16Checked viewSetBE
    rw [if_neg (by omega)]
    simp only [length_setBE]
    rw [if_pos (by omega)]

/-- Witness for c5_encode_failure_behaviour: a single pair needing 4
bytes against an empty view, and the 100-byte TLVError value against a
50-byte view. -/
theorem c5_encode_failure_behaviour_witness :
    tlvKVPairsEncode [([1], [2])] [] = ([], .error .bufferTooSmall) ∧
      tlvErrorEncode 43 (List.replicate 97 49) (List.replicate 50 255) =
        (setBE (List.replicate 50 255) 0 2 43, .error .outOfRange) :=
  ⟨c5_encode_failure_behaviour.1 [([1], [2])] [] (by decide),
    c5_encode_failure_behaviour.2 43 (List.replicate 97 49)
      (List.replicate 50 255) (by decide) (by decide)⟩

theorem setU8_comm (bs : List Nat) (i j a b : Nat) (h : i ≠ j) :
    setU8 (setU8 bs i a) j b = setU8 (setU8 bs j b) i a := by
  simp [setU8, List.set_comm _ _ _ h]

theorem setU8_setU8_same (bs : List Nat) (i a : Nat) :
    setU8 (setU8 bs i a) i a = setU8 bs i a := by
  simp [setU8, List.set_set]

theorem setU8_setBE_comm (bs : List Nat) (pos w u j v : Nat)
    (h : j < pos ∨ pos + w ≤ j) :
    setU8 (setBE bs pos w u) j v = setBE (setU8 bs j v) pos w u := by
  induction w generalizing bs u with
  | zero => rfl
  | succ w ih =>
      rw [setBE, ih _ _ (by omega), setU8_comm _ _ _ _ _ (by omega), setBE]

theorem setBE_setBE_same (bs : List Nat) (pos w v : Nat) :
    setBE (setBE bs pos w v) pos w v = setBE bs pos w v := by
  induction w generalizing bs v with
  | zero => rfl
  | succ w ih =>
      have hR : setBE bs pos (w + 1) v =
          setBE (setU8 bs (pos + w) v) pos w (v / 256) := rfl
      calc setBE (setBE bs pos (w + 1) v) pos (w + 1) v
          = setBE (setU8 (setBE (setU8 bs (pos + w) v) pos w (v / 256))
              (pos + w) v) pos w (v / 256) := by rw [← hR]; rfl
        _ = setBE (setBE (setU8 (setU8 bs (pos + w) v) (pos + w) v)
              pos w (v / 256)) pos w (v / 256) := by
            rw [setU8_setBE_comm _ _ _ _ _ _ (by omega)]
        _ = setBE (setBE (setU8 bs (pos + w) v) pos w (v / 256))
              pos w (v / 256) := by rw [setU8_setU8_same]
        _ = setBE (setU8 bs (pos + w) v) pos w (v / 256) := ih _ _
        _ = setBE bs pos (w + 1) v := rfl

theorem setBE_setBE_comm (bs : List Nat) (p1 w1 v1 p2 w2 v2 : Nat)
    (h : p1 + w1 ≤ p2) :
    setBE (setBE bs p1 w1 v1) p2 w2 v2 = setBE (setBE bs p2 w2 v2) p1 w1 v1 := by
  induction w2 generalizing bs v2 with
  | zero => rfl
  | succ w2 ih =>
      rw [setBE, setBE, setU8_setBE_comm _ _ _ _ _ _ (by omega), ih]

theorem drop_setBE (bs : List Nat) (pos w v n : Nat) (h : pos + w ≤ n) :
    List.drop n (setBE bs pos w v) = List.drop n bs := by
  induction w generalizing bs v with
  | zero => rfl
  | succ w ih =>
      rw [setBE, ih _ _ (by omega), setU8, List.drop_set, if_pos (by omega)]

theorem take_setBE (bs : List Nat) (pos w v n : Nat) :
    List.take n (setBE bs pos w v) = setBE (List.take n bs) pos w v := by
  induction w generalizing bs v with
  | zero => rfl
  | succ w ih =>
      rw [setBE, ih, setU8, List.set_take, setBE, setU8]

theorem setBE_append_left (xs ys : List Nat) (pos w v : Nat)
    (h : pos + w ≤ xs.length) :
    setBE (xs ++ ys) pos w v = setBE xs pos w v ++ ys := by
  induction w generalizing xs v with
  | zero => rfl
  | succ w ih =>
      rw [setBE]
      have hs : setU8 (xs ++ ys) (pos + w) v = setU8 xs (pos + w) v ++ ys := by
        unfold setU8
        exact List.set_append_left _ _ (by omega)
      rw [hs, ih _ _ (by simp [length_setU8]; omega), setBE]

/-- MessageEncoder::add (tlvencoding.cpp) over the state
(buffer, cursor), generic in the TLV through its type code and encode
function (the only members of TLVBase that add uses).  Steps:
getSub(cursor) on the buffer (throws when cursor > size), getSub(4) on
that sub-view (throws when 4 > size - cursor), tlv.encode on the value
sub-view -- modelled by running encodeFn on the tail of the buffer
past cursor + 4 and splicing the result back -- then the two checked
16-bit header stores of the type and of 4 + value length at cursor and
cursor + 2 (in bounds by the guards), and cursor advanced by the
total length.  On any failure the partially written buffer is kept and
the cursor is not advanced, as in the source where the exception
propagates before the cursor update. -/
def msgEncAdd (buf : List Nat) (cursor tlvType : Nat)
    (encodeFn : List Nat → List Nat × Except Err Nat) :
    (List Nat × Nat) × Option Err :=
  if cursor > buf.length then ((buf, cursor), some Err.outOfRange)
  else if 4 > buf.length - cursor then ((buf, cursor), some Err.outOfRange)
  else
    match encodeFn (buf.drop (cursor + 4)) with
    | (sub, .error e) => ((buf.take (cursor + 4) ++ sub, cursor), some e)
    | (sub, .ok vlen) =>
        ((setBE (setBE (buf.take (cursor + 4) ++ sub) cursor 2 tlvType)
            (cursor + 2) 2 (4 + vlen), cursor + (4 + vlen)), none)

/-- MessageEncoder::end (tlvencoding.cpp): writes the current cursor
into the total-length field of the common header and nothing else;
there is no closed state. -/
def msgEncEnd (buf : List Nat) (cursor : Nat) : List Nat × Nat :=
  (totalLengthSet buf cursor, cursor)

/-- The frame produced for claim C6: a 36-byte buffer, MessageEncoder
construction (header defaults, cursor 24), header().messageClass
(RESPONSE_FAILURE), add of TLVError(errcode = 42, message = the five
characters 1..5), end. -/
def c6Frame : List Nat :=
  match encoderMessageClass (setDefaults (List.replicate 36 0)) .RESPONSE_FAILURE with
  | .error _ => []
  | .ok b =>
      match msgEncAdd b 24 1 (tlvErrorEncode 42 [49, 50, 51, 52, 53]) with
      | ((b2, c2), none) => (msgEncEnd b2 c2).1
      | _ => []

/-- Claim C6 counterexample: the encoded ERROR TLV (header included)
is 00 01 00 0C 00 2A 31 32 33 34 35 00 -- the length field holds
12 = 4 + 2 + 6 -- not the 00 01 00 0A ... bytes stated by the claim. -/
theorem c6_error_frame_cx :
    c6Frame.drop 24 = [0, 1, 0, 12, 0, 42, 49, 50, 51, 52, 53, 0] ∧
      c6Frame.drop 24 ≠ [0, 1, 0, 10, 0, 42, 49, 50, 51, 52, 53, 0] := by
  exact ⟨by decide, by decide⟩

/-- Claim C6 (amended): encoding a RESPONSE_FAILURE message containing
TLVError with errcode 42 and the message 12345 yields a total frame
length of 36 (recorded in the preamble length field), flag bit 7 set
with ts_rc bits 14-15 equal to binary 10 (ts_rc = 0x8000), and the
encoded ERROR TLV equal to 00 01 00 0C 00 2A 31 32 33 34 35 00 (its
length field is 0x0C = 12, not 0x0A). -/
theorem c6_error_frame_amended :
    c6Frame.length = 36 ∧ getU32 c6Frame 4 = 36 ∧
      getU8 c6Frame 1 = 128 ∧ getU16 c6Frame 2 = 32768 ∧
      c6Frame.drop 24 = [0, 1, 0, 12, 0, 42, 49, 50, 51, 52, 53, 0] := by
  refine ⟨by decide, by decide, by decide, by decide, by decide⟩

/-- Claim C10: MessageEncoder has no closed state.  end() only writes
the current cursor into the header length field, so (1) end twice
leaves the state identical to end once; (2) add after end produces
exactly the state of add alone with the length field rewritten to the
old cursor -- the TLV is still appended at the cursor; (3) after a
successful add, a later end records the enlarged cursor (the old
cursor plus the 4-byte TLV header plus the value length reported by
the TLV's encode) in the length field. -/
theorem c10_messageEncoder_not_closed (buf : List Nat) (cursor tlvType : Nat)
    (encodeFn : List Nat → List Nat × Except Err Nat) (h : 8 ≤ cursor) :
    msgEncEnd (msgEncEnd buf cursor).1 (msgEncEnd buf cursor).2 =
        msgEncEnd buf cursor ∧
      msgEncAdd (msgEncEnd buf cursor).1 cursor tlvType encodeFn =
        ((totalLengthSet (msgEncAdd buf cursor tlvType encodeFn).1.1 cursor,
            (msgEncAdd buf cursor tlvType encodeFn).1.2),
          (msgEncAdd buf cursor tlvType encodeFn).2) ∧
      (∀ b2 c2, msgEncAdd buf cursor tlvType encodeFn = ((b2, c2), none) →
        getU32 (msgEncEnd b2 c2).1 4 = c2 % 2 ^ 32 ∧
          ∃ vlen, (encodeFn (buf.drop (cursor + 4))).2 = .ok vlen ∧
            c2 = cursor + (4 + vlen)) := by
  refine ⟨?_, ?_, ?_⟩
  · unfold msgEncEnd totalLengthSet
    rw [setBE_setBE_same]
  · unfold msgEncEnd totalLengthSet msgEncAdd
    simp only [length_setBE]
    by_cases h1 : cursor > buf.length
    · rw [if_pos h1, if_pos h1]
    · rw [if_neg h1, if_neg h1]
      by_cases h2 : 4 > buf.length - cursor
      · rw [if_pos h2, if_pos h2]
      · rw [if_neg h2, if_neg h2]
        rw [drop_setBE _ _ _ _ _ (by omega)]
        have hlen : 8 ≤ (List.take (cursor + 4) buf).length := by
          rw [List.length_take]
          omega
        rcases hF : encodeFn (List.drop (cursor + 4) buf) with ⟨sub, r⟩
        have hsplice : List.take (cursor + 4) (setBE buf 4 4 cursor) ++ sub =
            setBE (List.take (cursor + 4) buf ++ sub) 4 4 cursor := by
          rw [take_setBE,
            setBE_append_left (List.take (cursor + 4) buf) sub 4 4 cursor
              (by omega)]
        cases r with
        | error e =>
            simp only [hF]
            rw [hsplice]
        | ok vlen =>
            simp only [hF]
            rw [hsplice]
            rw [setBE_setBE_comm (List.take (cursor + 4) buf ++ sub) 4 4 cursor
                cursor 2 tlvType (by omega),
              setBE_setBE_comm (setBE (List.take (cursor + 4) buf ++ sub)
                cursor 2 tlvType) 4 4 cursor (cursor + 2) 2 (4 + vlen)
                (by omega)]
  · intro b2 c2 hok
    unfold msgEncAdd at hok
    by_cases h1 : cursor > buf.length
    · rw [if_pos h1] at hok
      simp at hok
    · rw [if_neg h1] at hok
      by_cases h2 : 4 > buf.length - cursor
      · rw [if_pos h2] at hok
        simp at hok
      · rw [if_neg h2] at hok
        rcases hF : encodeFn (List.drop (cursor + 4) buf) with ⟨sub, r⟩
        rw [hF] at hok
        cases r with
        | error e => simp at hok
        | ok vlen =>
            simp only [Prod.mk.injEq] at hok
            obtain ⟨⟨hb2, hc2⟩, -⟩ := hok
            refine ⟨?_, vlen, by simp [hF], hc2.symm⟩
            unfold msgEncEnd totalLengthSet getU32
            rw [getBE_setBE_same _ _ _ _ (by
              rw [← hb2, length_setBE, length_setBE, List.length_append,
                List.length_take]
              omega)]
            norm_num

/-- Witness for c10_messageEncoder_not_closed: the 36-byte buffer at
cursor 24 with the TLVError encoder. -/
theorem c10_messageEncoder_not_closed_witness :
    msgEncEnd (msgEncEnd (List.replicate 36 0) 24).1
        (msgEncEnd (List.replicate 36 0) 24).2 =
      msgEncEnd (List.replicate 36 0) 24 :=
  (c10_messageEncoder_not_closed (List.replicate 36 0) 24 1
    (tlvErrorEncode 42 [49, 50, 51, 52, 53]) (by decide)).1

/-- MessageDecoder::get (tlvencoding.cpp) over the state (buffer,
cursor), generic in the TLV through its type code and decode function
(the only members of TLVBase that get uses; decode returns the number
of bytes it consumed and never touches the buffer, which is
read-only).  Steps: getSub(cursor, 4) (throws when cursor + 4 > size);
read declared type and total length; type mismatch throws; the value
sub-view getSub(cursor + 4, length - 4) throws unless 4 <= length and
cursor + length <= size (for length < 4 the size_t subtraction
length - 4 wraps around, and with a buffer below the resulting bogus
sub-view every continuation of the source ends in a throw, so the
wrap case is rendered as the bounds failure); decode runs on the value
bytes; a reported length with 4 + reported differing from the declared
length throws; only then is the cursor advanced by the declared
length.  The returned state is the decoder object's state when the
call returns or throws; mCurrentOffset is assigned only after the last
possible throw. -/
def msgDecGet (buf : List Nat) (cursor expectedType : Nat)
    (decodeFn : List Nat → Except Err Nat) : Nat × Option Err :=
  if cursor + 4 > buf.length then (cursor, some Err.outOfRange)
  else
    let t := getU16 buf cursor
    let len := getU16 buf (cursor + 2)
    if t ≠ expectedType then (cursor, some Err.typeMismatch)
    else if len < 4 ∨ cursor + len > buf.length then (cursor, some Err.outOfRange)
    else
      match decodeFn ((buf.drop (cursor + 4)).take (len - 4)) with
      | .error e => (cursor, some e)
      | .ok d => if 4 + d ≠ len then (cursor, some Err.malformed)
        else (cursor + len, none)

/-- Claim C9: MessageDecoder::get is cursor-atomic on failure: (1) on
any failure the cursor is unchanged, so a subsequent get or
getNextTLVType observes the same position; (2) on success the cursor
advances by exactly the declared total length; (3) each failure cause
listed by the claim does fail: a type at the cursor differing from the
expected type, a declared length whose value part does not fit in the
buffer, and a decoded length plus 4 differing from the declared
length. -/
theorem c9_decoder_get_cursor_atomic (buf : List Nat)
    (cursor expectedType : Nat) (decodeFn : List Nat → Except Err Nat) :
    (∀ e, (msgDecGet buf cursor expectedType decodeFn).2 = some e →
        (msgDecGet buf cursor expectedType decodeFn).1 = cursor) ∧
      ((msgDecGet buf cursor expectedType decodeFn).2 = none →
        (msgDecGet buf cursor expectedType decodeFn).1 =
          cursor + getU16 buf (cursor + 2)) ∧
      (cursor + 4 ≤ buf.length → getU16 buf cursor ≠ expectedType →
        (msgDecGet buf cursor expectedType decodeFn).2 = some Err.typeMismatch) ∧
      (cursor + 4 ≤ buf.length → getU16 buf cursor = expectedType →
        buf.length < cursor + getU16 buf (cursor + 2) →
        (msgDecGet buf cursor expectedType decodeFn).2 = some Err.outOfRange) ∧
      (∀ d, cursor + 4 ≤ buf.length → getU16 buf cursor = expectedType →
        4 ≤ getU16 buf (cursor + 2) →
        cursor + getU16 buf (cursor + 2) ≤ buf.length →
        decodeFn ((buf.drop (cursor + 4)).take (getU16 buf (cursor + 2) - 4)) =
          .ok d →
        4 + d ≠ getU16 buf (cursor + 2) →
        (msgDecGet buf cursor expectedType decodeFn).2 = some Err.malformed) := by
  unfold msgDecGet
  by_cases h1 : cursor + 4 > buf.length
  · rw [if_pos h1]
    exact ⟨fun e _ => rfl, by simp, fun h => by omega, fun h => by omega,
      fun d h => by omega⟩
  · rw [if_neg h1]
    simp only
    by_cases h2 : getU16 buf cursor ≠ expectedType
    · rw [if_pos h2]
      exact ⟨fun e _ => rfl, by simp, fun _ _ => rfl,
        fun _ hc => absurd hc h2, fun d _ hc => absurd hc h2⟩
    · rw [if_neg h2]
      by_cases h3 : getU16 buf (cursor + 2) < 4 ∨
          cursor + getU16 buf (cursor + 2) > buf.length
      · rw [if_pos h3]
        refine ⟨fun e _ => rfl, by simp, fun _ hc => absurd hc h2,
          fun _ _ _ => rfl, fun d _ _ h4 h5 _ _ => by omega⟩
      · rw [if_neg h3]
        rcases hD : decodeFn ((buf.drop (cursor + 4)).take
            (getU16 buf (cursor + 2) - 4)) with e | d
        · dsimp only
          exact ⟨fun e2 _ => rfl, by simp, fun _ hc => absurd hc h2,
            fun _ _ hc => by omega, fun d2 _ _ _ _ hc => absurd hc (by simp)⟩
        · dsimp only
          by_cases h5 : 4 + d ≠ getU16 buf (cursor + 2)
          · rw [if_pos h5]
            exact ⟨fun e2 _ => rfl, by simp, fun _ hc => absurd hc h2,
              fun _ _ hc => by omega, fun d2 _ _ _ _ hc hne => rfl⟩
          · rw [if_neg h5]
            refine ⟨fun e2 hc => by simp at hc, fun _ => rfl,
              fun _ hc => absurd hc h2, fun _ _ hc => by omega,
              fun d2 _ _ _ _ hc hne => ?_⟩
            injection hc with hdd
            omega

/-- A 29-byte frame, version 2, with one ERROR TLV of declared total
length 5, used to exercise msgDecGet. -/
def c9Frame : List Nat := 2 :: (List.replicate 23 0 ++ [0, 1, 0, 5, 7])

/-- Witness for c9_decoder_get_cursor_atomic: requesting TLV type 2 at
a cursor whose wire type is 1 fails with the type mismatch and leaves
the cursor at 24. -/
theorem c9_decoder_get_cursor_atomic_witness :
    (msgDecGet c9Frame 24 2 (fun _ => Except.ok 1)).2 = some Err.typeMismatch ∧
      (msgDecGet c9Frame 24 2 (fun _ => Except.ok 1)).1 = 24 := by
  have h3 := (c9_decoder_get_cursor_atomic c9Frame 24 2
    (fun _ => Except.ok 1)).2.2.1 (by decide) (by decide)
  exact ⟨h3, (c9_decoder_get_cursor_atomic c9Frame 24 2
    (fun _ => Except.ok 1)).1 Err.typeMismatch h3⟩

/-- One result of the read(2) call inside IO::readMessage (io.cpp):
either the call returns up to k bytes from the socket stream, or it
fails with rc = -1 and a transient errno (EAGAIN / EWOULDBLOCK /
EINTR: sleep 100 ms; the code then falls through to bytesRead += rc),
a connection-reset errno (ECONNABORTED / ECONNRESET: close and return
an empty view), or any other errno (close and throw). -/
inductive ReadEvt where
  | give (k : Nat)
  | transient
  | reset
  | fatal
  deriving DecidableEq

/-- Exit status of one of the two read loops of IO::readMessage.
bytesRead is an ssize_t and can move backwards (see drainDo), hence
an Int. -/
inductive DrainOut where
  | done (script : List ReadEvt) (stream : List Nat) (buf : List Nat)
      (bytesRead : Int)
  | eofOut (stream : List Nat) (buf : List Nat) (bytesRead : Int)
  | resetOut (stream : List Nat) (buf : List Nat) (bytesRead : Int)
  | fatalOut
  | blockedOut
  deriving DecidableEq

/-- Write a run of bytes at consecutive ssize_t positions (the read(2)
destination rawBuffer + bytesRead); positions outside the modelled
allocation -- negative, or at or past the list end -- are rendered as
no-ops on the region (the C++ store is then out of bounds). -/
def writeBytesI (bs : List Nat) (pos : Int) : List Nat → List Nat
  | [] => bs
  | c :: cs =>
      writeBytesI (if 0 ≤ pos then setU8 bs pos.toNat c else bs) (pos + 1) cs

theorem length_writeBytesI (bs : List Nat) (pos : Int) (cs : List Nat) :
    (writeBytesI bs pos cs).length = bs.length := by
  induction cs generalizing bs pos with
  | nil => rfl
  | cons c cs ih =>
      rw [writeBytesI, ih]
      split
      · rw [length_setU8]
      · rfl

theorem getBE_writeBytesI_outside (bs : List Nat) (pos : Int)
    (cs : List Nat) (i u : Nat) (h : ((i + u : Nat) : Int) ≤ pos) :
    getBE (writeBytesI bs pos cs) i u = getBE bs i u := by
  induction cs generalizing bs pos with
  | nil => rfl
  | cons c cs ih =>
      rw [writeBytesI, ih _ _ (by omega)]
      split
      · exact getBE_setU8_outside _ _ _ _ _ (by omega)
      · rfl

/-- The do-while read loops of IO::readMessage (io.cpp, preamble loop
and body loop): each iteration performs
rc = read(fd, rawBuffer + bytesRead, target - bytesRead) and ends at
bytesRead += rc followed by the while (bytesRead < target) test.
bytesRead and rc are ssize_t: on a transient errno the branch only
sleeps and then falls through to bytesRead += rc with rc = -1, moving
the write offset BACK one byte, so later reads overwrite earlier
bytes; the requested count target - bytesRead is converted to size_t,
wrapping modulo 2^64 when bytesRead exceeds target.  read(2) returns
at most the requested count and at most what the stream still holds; a
zero return is end-of-file (close, return the empty view), reset
errnos return the empty view, any other errno throws.  A run past the
end of the scripted events is reported as blockedOut (the real loop
would block or retry forever). -/
def drainDo (script : List ReadEvt) (stream buf : List Nat)
    (bytesRead : Int) (target : Nat) : DrainOut :=
  match script with
  | [] => .blockedOut
  | .give k :: rest =>
      let n := (((target : Int) - bytesRead) % 2 ^ 64).toNat
      let rc := min k (min n stream.length)
      if rc = 0 then .eofOut stream buf bytesRead
      else
        let buf2 := writeBytesI buf bytesRead (stream.take rc)
        if bytesRead + rc < target then
          drainDo rest (stream.drop rc) buf2 (bytesRead + rc) target
        else .done rest (stream.drop rc) buf2 (bytesRead + rc)
  | .transient :: rest =>
      if bytesRead - 1 < target then drainDo rest stream buf (bytesRead - 1) target
      else .done rest stream buf (bytesRead - 1)
  | .reset :: _ => .resetOut stream buf bytesRead
  | .fatal :: _ => .fatalOut

theorem drainDo_done_length (script : List ReadEvt) (stream buf : List Nat)
    (br : Int) (target : Nat) (s2 : List ReadEvt) (st2 b2 : List Nat)
    (br2 : Int)
    (h : drainDo script stream buf br target = .done s2 st2 b2 br2) :
    b2.length = buf.length := by
  induction script generalizing stream buf br with
  | nil => exact absurd h (by simp [drainDo])
  | cons evt rest ih =>
      cases evt with
      | give k =>
          rw [drainDo] at h
          by_cases h0 : min k (min ((((target : Int) - br) % 2 ^ 64).toNat)
              stream.length) = 0
          · rw [if_pos h0] at h
            exact absurd h (by simp)
          · rw [if_neg h0] at h
            by_cases h1 : br + (min k (min ((((target : Int) - br) %
                2 ^ 64).toNat) stream.length) : Nat) < target
            · rw [if_pos h1] at h
              rw [ih _ _ _ h, length_writeBytesI]
            · rw [if_neg h1] at h
              injection h with hs hst hb hbr
              rw [← hb, length_writeBytesI]
      | transient =>
          rw [drainDo] at h
          by_cases h1 : br - 1 < target
          · rw [if_pos h1] at h
            exact ih _ _ _ h
          · rw [if_neg h1] at h
            injection h with hs hst hb hbr
            rw [← hb]
      | reset => exact absurd h (by simp [drainDo])
      | fatal => exact absurd h (by simp [drainDo])

theorem drainDo_done_facts (script : List ReadEvt) (stream buf : List Nat)
    (br : Int) (target : Nat) (s2 : List ReadEvt) (st2 b2 : List Nat)
    (br2 : Int) (htr : ReadEvt.transient ∉ script) (h0 : 0 ≤ br)
    (h : drainDo script stream buf br target = .done s2 st2 b2 br2) :
    br ≤ br2 ∧ st2.length ≤ stream.length ∧
      (br ≤ (target : Int) → target < 2 ^ 64 →
        br2 = (target : Int) ∧
          (stream.length : Int) - st2.length = (target : Int) - br) ∧
      (∀ i u : Nat, ((i + u : Nat) : Int) ≤ br →
        getBE b2 i u = getBE buf i u) ∧
      ReadEvt.transient ∉ s2 := by
  induction script generalizing stream buf br with
  | nil => exact absurd h (by simp [drainDo])
  | cons evt rest ih =>
      have htrr : ReadEvt.transient ∉ rest :=
        fun hm => htr (List.mem_cons_of_mem _ hm)
      cases evt with
      | give k =>
          rw [drainDo] at h
          set n := (((target : Int) - br) % 2 ^ 64).toNat with hn
          set rc := min k (min n stream.length) with hrc
          by_cases h0r : rc = 0
          · rw [if_pos h0r] at h
            exact absurd h (by simp)
          · rw [if_neg h0r] at h
            have hrcs : rc ≤ stream.length := by omega
            by_cases h1 : br + (rc : Int) < target
            · rw [if_pos h1] at h
              obtain ⟨ha, hb, hc, hd, he⟩ := ih _ _ _ htrr (by omega) h
              rw [List.length_drop] at hb
              refine ⟨by omega, by omega, fun hbt h64 => ?_,
                fun i u hiu => ?_, he⟩
              · obtain ⟨hc1, hc2⟩ := hc (by omega) h64
                rw [List.length_drop] at hc2
                refine ⟨hc1, by omega⟩
              · rw [hd i u (by omega),
                  getBE_writeBytesI_outside _ _ _ _ _ (by omega)]
            · rw [if_neg h1] at h
              injection h with hs hst hb2 hbr
              subst hst hbr hb2
              rw [List.length_drop]
              refine ⟨by omega, by omega, fun hbt h64 => ?_,
                fun i u hiu =>
                  getBE_writeBytesI_outside _ _ _ _ _ (by omega),
                hs ▸ htrr⟩
              have hmod : ((target : Int) - br) % 2 ^ 64 = (target : Int) - br := by
                omega
              have h2 : (rc : Int) ≤ (target : Int) - br := by
                rw [hrc, hn]
                omega
              constructor
              · omega
              · omega
      | transient => exact absurd (List.mem_cons_self _ _) htr
      | reset => exact absurd h (by simp [drainDo])
      | fatal => exact absurd h (by simp [drainDo])

theorem getBE_one (bs : List Nat) (i : Nat) : getBE bs i 1 = getU8 bs i := by
  simp [getBE]

/-- Outcome of IO::readMessage (io.cpp): a non-empty sub-view [0,
bytesRead) of the buffer on success; an empty view after end-of-file /
connection reset (the connection is also closed) or after reading a
full frame whose preamble version is not 2 (versionSkip, carrying how
many stream bytes the call consumed); thrown errors for a buffer
smaller than the preamble, a buffer smaller than the declared message
length, a non-recoverable errno, or the final bytesRead sanity check;
blocked when the scripted socket events run out. -/
inductive ReadOutcome where
  | okView (view : List Nat) (buf : List Nat) (consumed : Nat)
  | emptyEof (buf : List Nat)
  | versionSkip (buf : List Nat) (consumed : Nat)
  | errNoRoomForMessage
  | errSanity
  | errFatal
  | errBufTooSmall
  | blocked
  deriving DecidableEq

/-- IO::readMessage (io.cpp) against a scripted socket: require a
buffer of at least Preamble::size (8); drain 8 preamble bytes with the
retrying do-while loop (whose transient-errno fall-through can rewind
bytesRead, see drainDo); parse version (offset 0) and the 32-bit
length (offset 4); fail if the buffer is smaller than the declared
length; drain with the same do-while loop until bytesRead reaches the
declared length (the count is a size_t and wraps when it is below the
bytes already read); if the version is not 2 silently return the
empty view; apply the bytesRead = length sanity check; and return the
sub-view [0, bytesRead). -/
def readMessage (script : List ReadEvt) (stream buf : List Nat) : ReadOutcome :=
  if buf.length < 8 then .errBufTooSmall
  else
    match drainDo script stream buf 0 8 with
    | .blockedOut => .blocked
    | .eofOut _ b _ => .emptyEof b
    | .resetOut _ b _ => .emptyEof b
    | .fatalOut => .errFatal
    | .done script1 stream1 buf1 bytesRead1 =>
        if buf.length < getU32 buf1 4 then .errNoRoomForMessage
        else
          match drainDo script1 stream1 buf1 bytesRead1 (getU32 buf1 4) with
          | .blockedOut => .blocked
          | .eofOut _ b _ => .emptyEof b
          | .resetOut _ b _ => .emptyEof b
          | .fatalOut => .errFatal
          | .done _ stream2 buf2 bytesRead2 =>
              if getU8 buf1 0 ≠ 2 then
                .versionSkip buf2 (stream.length - stream2.length)
              else if bytesRead2 ≠ (getU32 buf1 4 : Int) then .errSanity
              else .okView (buf2.take bytesRead2.toNat) buf2
                (stream.length - stream2.length)

/-- Claim C8 (amended): against every scripted sequence of partial
socket reads without transient errors, (1) whenever readMessage
returns a non-empty view -- okView is the only non-empty return,
eofOut/resetOut/versionSkip return the empty view -- that view is the
prefix [0, length) of the supplied buffer, where length is the 32-bit
value at preamble offset 4 of the bytes read, and the preamble version
is 2; (2) whenever a full frame was read but its version byte is not 2
(versionSkip), the empty view is returned, and when the declared
length is at least the 8 preamble bytes already read the call consumed
exactly length stream bytes.  Transient errors are excluded because
the source's do-while loops fall through to bytesRead += rc with
rc = -1 on EAGAIN/EWOULDBLOCK/EINTR, rewinding the write offset so
that later reads overwrite earlier bytes and corrupt the frame (see
the counterexample); and for a declared length below 8 the second
loop's size_t count underflows and over-consumes (also in the
counterexample). -/
theorem c8_readMessage_framing (script : List ReadEvt) (stream buf : List Nat)
    (htr : ReadEvt.transient ∉ script) :
    (∀ v bufF c, readMessage script stream buf = .okView v bufF c →
        v = bufF.take (getU32 bufF 4) ∧ v.length = getU32 bufF 4 ∧
          v ≠ [] ∧ getU8 bufF 0 = 2) ∧
      (∀ bufF c, readMessage script stream buf = .versionSkip bufF c →
        getU8 bufF 0 ≠ 2 ∧ (8 ≤ getU32 bufF 4 → c = getU32 bufF 4)) := by
  unfold readMessage
  by_cases hsmall : buf.length < 8
  · rw [if_pos hsmall]
    exact ⟨fun v bufF c h => by simp at h, fun bufF c h => by simp at h⟩
  · rw [if_neg hsmall]
    cases hd1 : drainDo script stream buf 0 8 with
    | blockedOut =>
        exact ⟨fun v bufF c h => by simp at h, fun bufF c h => by simp at h⟩
    | eofOut st b brx =>
        exact ⟨fun v bufF c h => by simp at h, fun bufF c h => by simp at h⟩
    | resetOut st b brx =>
        exact ⟨fun v bufF c h => by simp at h, fun bufF c h => by simp at h⟩
    | fatalOut =>
        exact ⟨fun v bufF c h => by simp at h, fun bufF c h => by simp at h⟩
    | done s1 st1 b1 br1 =>
        dsimp only
        obtain ⟨hA1, hB1, hC1, hD1, hE1⟩ :=
          drainDo_done_facts _ _ _ _ _ _ _ _ _ htr (by omega) hd1
        have hL1 := drainDo_done_length _ _ _ _ _ _ _ _ _ hd1
        obtain ⟨hbr1, hcons1⟩ := hC1 (by omega) (by norm_num)
        have h32 : getU32 b1 4 < 4294967296 := by
          have := getBE_lt b1 4 4
          unfold getU32
          omega
        by_cases hroom : buf.length < getU32 b1 4
        · rw [if_pos hroom]
          exact ⟨fun v bufF c h => by simp at h, fun bufF c h => by simp at h⟩
        · rw [if_neg hroom]
          cases hd2 : drainDo s1 st1 b1 br1 (getU32 b1 4) with
          | blockedOut =>
              exact ⟨fun v bufF c h => by simp at h, fun bufF c h => by simp at h⟩
          | eofOut st b brx =>
              exact ⟨fun v bufF c h => by simp at h, fun bufF c h => by simp at h⟩
          | resetOut st b brx =>
              exact ⟨fun v bufF c h => by simp at h, fun bufF c h => by simp at h⟩
          | fatalOut =>
              exact ⟨fun v bufF c h => by simp at h, fun bufF c h => by simp at h⟩
          | done s2 st2 b2 br2 =>
              dsimp only
              obtain ⟨hA2, hB2, hC2, hD2, -⟩ :=
                drainDo_done_facts _ _ _ _ _ _ _ _ _ hE1 (by omega) hd2
              have hL2 := drainDo_done_length _ _ _ _ _ _ _ _ _ hd2
              have hpresV : getU8 b2 0 = getU8 b1 0 := by
                rw [← getBE_one, ← getBE_one]
                exact hD2 0 1 (by omega)
              have hpresL : getU32 b2 4 = getU32 b1 4 := by
                unfold getU32
                exact hD2 4 4 (by omega)
              by_cases hv : getU8 b1 0 ≠ 2
              · rw [if_pos hv]
                refine ⟨fun v bufF c h => by simp at h, fun bufF c h => ?_⟩
                injection h with hbf hc
                subst hbf
                refine ⟨by rw [hpresV]; exact hv, fun hlen8 => ?_⟩
                rw [hpresL] at hlen8
                obtain ⟨hbr2, hcons2⟩ := hC2 (by omega) (by omega)
                rw [← hc, hpresL]
                omega
              · rw [if_neg hv]
                by_cases hsan : br2 ≠ (getU32 b1 4 : Int)
                · rw [if_pos hsan]
                  exact ⟨fun v bufF c h => by simp at h,
                    fun bufF c h => by simp at h⟩
                · rw [if_neg hsan]
                  refine ⟨fun v bufF c h => ?_, fun bufF c h => by simp at h⟩
                  injection h with hv1 hbf hc
                  subst hbf
                  subst hv1
                  have hbr2L : br2 = (getU32 b1 4 : Int) := not_ne_iff.mp hsan
                  have hbtn : br2.toNat = getU32 b1 4 := by omega
                  have hlb2 : b2.length = buf.length := by rw [hL2, hL1]
                  refine ⟨by rw [hpresL, hbtn], ?_, ?_, ?_⟩
                  · rw [List.length_take, hpresL, hbtn]
                    omega
                  · apply List.ne_nil_of_length_pos
                    rw [List.length_take]
                    omega
                  · rw [hpresV]
                    exact not_ne_iff.mp hv

/-- The scripted socket of scenario S4: 3 bytes, a transient EAGAIN,
5 bytes, then the remaining 28 bytes of the frame body. -/
def c8Script : List ReadEvt := [.give 3, .transient, .give 5, .give 28]

/-- A full 36-byte RESPONSE_FAILURE frame on the wire. -/
def c8Stream : List Nat :=
  [2, 128, 128, 0, 0, 0, 0, 36] ++ List.replicate 16 0 ++
    [0, 1, 0, 12, 0, 42, 49, 50, 51, 52, 53, 0]

/-- Claim C8 counterexample, two failing inputs.  First, the claim's
own S4 scenario (3 bytes, EAGAIN, 5 bytes, the rest): after the
transient errno the loop falls through to bytesRead += rc with
rc = -1, so the next read lands one byte early, the preamble is
assembled shifted as [2,128,0,0,0,0,36,0], the declared length parses
as 9216 > 40, and readMessage throws buffer-too-small instead of
producing a single complete view.  Second, a frame whose preamble
declares length 5 (below the 8 preamble bytes already read) with
version 7 and 3 pending bytes: the second loop's size_t count 5 - 8
underflows, one further read consumes the 3 pending bytes, and the
empty view comes back with 11 stream bytes consumed, not the 5 the
claim's realignment requires. -/
theorem c8_readMessage_cx :
    readMessage c8Script c8Stream (List.replicate 40 0) =
        .errNoRoomForMessage ∧
      readMessage [ReadEvt.give 8, ReadEvt.give 3]
          [7, 0, 0, 0, 0, 0, 0, 5, 9, 9, 9] (List.replicate 8 0) =
        .versionSkip [7, 0, 0, 0, 0, 0, 0, 5] 11 ∧
      getU32 [7, 0, 0, 0, 0, 0, 0, 5] 4 = 5 ∧ (11 : Nat) ≠ 5 := by
  exact ⟨by decide, by decide, by decide, by decide⟩

/-- A transient-free partial-read script delivering the same frame:
3 bytes, then 5 bytes, then the remaining 28 bytes. -/
def c8ScriptW : List ReadEvt := [.give 3, .give 5, .give 28]

/-- The 40-byte read buffer for the witness scenario. -/
def c8Buf : List Nat := List.replicate 40 0

/-- The view readMessage produces for the witness scenario. -/
def c8View : List Nat := c8Stream

/-- The buffer contents after the witness scenario. -/
def c8BufF : List Nat := c8Stream ++ List.replicate 4 0

/-- Witness for c8_readMessage_framing: the transient-free partial
reads produce a single complete view equal to the frame prefix
[0, 36). -/
theorem c8_readMessage_framing_witness :
    c8View = c8BufF.take (getU32 c8BufF 4) ∧ c8View.length = getU32 c8BufF 4 ∧
      c8View ≠ [] ∧ getU8 c8BufF 0 = 2 :=
  (c8_readMessage_framing c8ScriptW c8Stream c8Buf (by decide)).1
    c8View c8BufF 36 (by decide)
